import Mathlib

set_option maxRecDepth 100000

/-!
Verification of the yt-mpv archival pipeline core: URL normalization,
archive-identifier derivation, cache management, metadata extraction,
existence checking and the pipeline controller, shallowly embedded from
the Python sources.
-/

namespace YtMpv

/-! ## UTF-8 encoding (Python `str.encode()`); bytes are `Nat < 256`. -/

/-- Encode one Unicode code point as its UTF-8 byte sequence. -/
def encodeChar (c : Char) : List Nat :=
  let n := c.toNat
  if n < 128 then [n]
  else if n < 2048 then [192 + n / 64, 128 + n % 64]
  else if n < 65536 then [224 + n / 4096, 128 + (n / 64) % 64, 128 + n % 64]
  else [240 + n / 262144, 128 + (n / 4096) % 64, 128 + (n / 64) % 64, 128 + n % 64]

/-- `str.encode()`: UTF-8 bytes of a string. -/
def utf8Bytes (s : String) : List Nat :=
  s.data.flatMap encodeChar

/-! ## SHA-1 (`hashlib.sha1`), on bytes, words as `Nat` reduced mod 2^32. -/

def w32 : Nat := 4294967296

/-- Rotate a 32-bit word left by `s` bits. -/
def rotl (s n : Nat) : Nat :=
  ((n <<< s) ||| (n >>> (32 - s))) % w32

/-- SHA-1 padding: append 0x80, zeros, and the 64-bit big-endian bit length. -/
def sha1Pad (msg : List Nat) : List Nat :=
  let len := msg.length
  let bitLen := 8 * len
  let zeros := (119 - len % 64) % 64
  msg ++ [128] ++ List.replicate zeros 0 ++
    [bitLen / 72057594037927936 % 256, bitLen / 281474976710656 % 256,
     bitLen / 1099511627776 % 256, bitLen / 4294967296 % 256,
     bitLen / 16777216 % 256, bitLen / 65536 % 256,
     bitLen / 256 % 256, bitLen % 256]

/-- Split a byte list into successive 64-byte chunks (fuel-structured so the
kernel can evaluate it; the fuel `l.length` always suffices since each step
consumes at least one element). -/
def chunks64Aux : Nat → List Nat → List (List Nat)
  | 0, _ => []
  | _, [] => []
  | fuel + 1, a :: rest =>
      (a :: rest).take 64 :: chunks64Aux fuel ((a :: rest).drop 64)

def chunks64 (l : List Nat) : List (List Nat) :=
  chunks64Aux l.length l

/-- Group bytes four at a time into big-endian 32-bit words. -/
def wordsOfBytes : List Nat → List Nat
  | b0 :: b1 :: b2 :: b3 :: rest =>
      (b0 * 16777216 + b1 * 65536 + b2 * 256 + b3) :: wordsOfBytes rest
  | _ => []

/-- Extend the 16 schedule words to 80. -/
def extendWords (ws : List Nat) : List Nat :=
  (List.range 64).foldl
    (fun acc _ =>
      let i := acc.length
      acc ++ [rotl 1 (((acc.getD (i - 3) 0) ^^^ (acc.getD (i - 8) 0)) ^^^
                      ((acc.getD (i - 14) 0) ^^^ (acc.getD (i - 16) 0)))])
    ws

/-- One SHA-1 round: state is `(a, b, c, d, e)`, `i` the round index. -/
def sha1Round (st : Nat × Nat × Nat × Nat × Nat) (iw : Nat × Nat) :
    Nat × Nat × Nat × Nat × Nat :=
  let (a, b, c, d, e) := st
  let (i, wi) := iw
  let f :=
    if i < 20 then (b &&& c) ||| (((w32 - 1) ^^^ b) &&& d)
    else if i < 40 then (b ^^^ c) ^^^ d
    else if i < 60 then ((b &&& c) ||| (b &&& d)) ||| (c &&& d)
    else (b ^^^ c) ^^^ d
  let k :=
    if i < 20 then 1518500249
    else if i < 40 then 1859775393
    else if i < 60 then 2400959708
    else 3395469782
  let temp := (rotl 5 a + f + e + k + wi) % w32
  (temp, a, rotl 30 b, c, d)

/-- Process one 64-byte chunk, updating the five hash words. -/
def sha1Chunk (h : Nat × Nat × Nat × Nat × Nat) (chunk : List Nat) :
    Nat × Nat × Nat × Nat × Nat :=
  let (h0, h1, h2, h3, h4) := h
  let ws := extendWords (wordsOfBytes chunk)
  let (a, b, c, d, e) :=
    (((List.range 80).zip ws).foldl sha1Round (h0, h1, h2, h3, h4))
  ((h0 + a) % w32, (h1 + b) % w32, (h2 + c) % w32, (h3 + d) % w32, (h4 + e) % w32)

/-- Big-endian bytes of a 32-bit word. -/
def wordBytes (n : Nat) : List Nat :=
  [n / 16777216 % 256, n / 65536 % 256, n / 256 % 256, n % 256]

/-- SHA-1 digest of a byte string, as its 20 bytes. -/
def sha1Bytes (msg : List Nat) : List Nat :=
  let (h0, h1, h2, h3, h4) :=
    (chunks64 (sha1Pad msg)).foldl sha1Chunk
      (1732584193, 4023233417, 2562383102, 271733878, 3285377520)
  wordBytes h0 ++ wordBytes h1 ++ wordBytes h2 ++ wordBytes h3 ++ wordBytes h4

/-- Lowercase hexadecimal digit for a nibble. -/
def hexDigit (n : Nat) : Char :=
  if n < 10 then Char.ofNat (48 + n) else Char.ofNat (87 + n)

/-- Lowercase hex characters of a byte list (`hexdigest()`). -/
def bytesToHex (bs : List Nat) : List Char :=
  bs.flatMap (fun b => [hexDigit (b / 16), hexDigit (b % 16)])

/-- `hashlib.sha1(url.encode()).hexdigest()` as a Lean string. -/
def sha1Hex (s : String) : String :=
  String.mk (bytesToHex (sha1Bytes (utf8Bytes s)))

/-- `hashlib.sha1(url.encode()).hexdigest()[:8]`: the truncated digest. -/
def urlHash8 (url : String) : String :=
  (sha1Hex url).take 8

/-- `generate_archive_id` from `yt_mpv/utils/fs.py` (the identical function
also appears in `utils/system.py` and `utils.py`), with the operator
identity supplied explicitly (the code only consults `os.getlogin()` when
the argument is absent). -/
def generate_archive_id (url : String) (username : String) : String :=
  "yt-mpv-" ++ username ++ "-" ++ urlHash8 url

/-! ### Facts about the identifier generator -/

lemma bytesToHex_length (bs : List Nat) : (bytesToHex bs).length = 2 * bs.length := by
  induction bs with
  | nil => rfl
  | cons b rest ih =>
      simp only [bytesToHex, List.flatMap_cons, List.length_append,
        List.length_cons, List.length_nil] at ih ⊢
      omega

lemma sha1Bytes_length (msg : List Nat) : (sha1Bytes msg).length = 20 := by
  unfold sha1Bytes
  obtain ⟨h0, h1, h2, h3, h4⟩ :=
    (chunks64 (sha1Pad msg)).foldl sha1Chunk
      (1732584193, 4023233417, 2562383102, 271733878, 3285377520)
  simp [wordBytes]

lemma sha1Bytes_lt (msg : List Nat) : ∀ b ∈ sha1Bytes msg, b < 256 := by
  unfold sha1Bytes
  obtain ⟨h0, h1, h2, h3, h4⟩ :=
    (chunks64 (sha1Pad msg)).foldl sha1Chunk
      (1732584193, 4023233417, 2562383102, 271733878, 3285377520)
  intro b hb
  simp only [wordBytes, List.mem_append, List.mem_cons, List.not_mem_nil,
    or_false] at hb
  omega

lemma hexDigit_mem (n : Nat) (h : n < 16) :
    hexDigit n ∈ ("0123456789abcdef").data := by
  have hall : ∀ m, m < 16 → hexDigit m ∈ ("0123456789abcdef").data := by decide
  exact hall n h

lemma bytesToHex_mem (bs : List Nat) (hb : ∀ b ∈ bs, b < 256) :
    ∀ c ∈ bytesToHex bs, c ∈ ("0123456789abcdef").data := by
  induction bs with
  | nil => simp [bytesToHex]
  | cons b rest ih =>
      intro c hc
      simp only [bytesToHex, List.flatMap_cons, List.mem_append,
        List.mem_cons, List.not_mem_nil, or_false] at hc
      have hblt : b < 256 := hb b (List.mem_cons_self b rest)
      rcases hc with (rfl | rfl) | hc
      · exact hexDigit_mem _ (by omega)
      · exact hexDigit_mem _ (by omega)
      · exact ih (fun x hx => hb x (List.mem_cons_of_mem b hx)) c hc

lemma sha1Hex_length (s : String) : (sha1Hex s).length = 40 := by
  have h : (sha1Hex s).length = (bytesToHex (sha1Bytes (utf8Bytes s))).length := rfl
  rw [h, bytesToHex_length, sha1Bytes_length]

lemma string_length_data (s : String) : s.length = s.data.length := rfl

lemma urlHash8_data (u : String) :
    (urlHash8 u).data = (sha1Hex u).data.take 8 := by
  unfold urlHash8
  exact String.data_take (sha1Hex u) 8

lemma urlHash8_length (u : String) : (urlHash8 u).length = 8 := by
  rw [string_length_data, urlHash8_data, List.length_take]
  have h40 : (sha1Hex u).data.length = 40 := sha1Hex_length u
  omega

/-- C1: `generate_archive_id` is a pure function of `(url, username)` (no
time dependence appears anywhere in its definition); its result is exactly
`"yt-mpv-" ++ username ++ "-" ++ h` where `h` is the first 8 characters of
the lowercase-hex SHA-1 digest of the URL's UTF-8 bytes; `h` has length 8
and consists of lowercase hex characters only; and for a fixed identity,
URLs whose truncated digests differ receive distinct identifiers. -/
theorem claim_C1 (u i : String) :
    generate_archive_id u i = "yt-mpv-" ++ i ++ "-" ++ urlHash8 u ∧
    (urlHash8 u).length = 8 ∧
    (∀ c ∈ (urlHash8 u).data, c ∈ ("0123456789abcdef").data) ∧
    (∀ u2, urlHash8 u ≠ urlHash8 u2 →
      generate_archive_id u i ≠ generate_archive_id u2 i) := by
  refine ⟨rfl, urlHash8_length u, ?_, ?_⟩
  · intro c hc
    rw [urlHash8_data] at hc
    exact bytesToHex_mem _ (sha1Bytes_lt _) c (List.take_subset 8 _ hc)
  · intro u2 hne heq
    apply hne
    apply String.ext
    have hd := congrArg String.data heq
    simp only [generate_archive_id, String.data_append] at hd
    exact List.append_cancel_left hd

/-- Witness for C1 on concrete inputs: two distinct URLs from the repo's
own test suite receive distinct identifiers. -/
theorem claim_C1_witness :
    generate_archive_id "https://www.youtube.com/watch?v=dQw4w9WgXcQ" "testuser" ≠
      generate_archive_id "https://www.youtube.com/watch?v=different" "testuser" :=
  (claim_C1 "https://www.youtube.com/watch?v=dQw4w9WgXcQ" "testuser").2.2.2
    "https://www.youtube.com/watch?v=different" (by decide)

/-! ## URL handling (`yt_mpv/utils/url.py`)

`urllib.parse.unquote` / `parse_qs` are modelled byte-faithfully for valid
escape sequences: runs of `%XX` escapes decode to bytes which are then
UTF-8-decoded; an invalid escape leaves `%` literal; an invalid byte
sequence yields U+FFFD. -/

/-- Hex value of a character, accepting both cases (`string.hexdigits`). -/
def hexVal (c : Char) : Option Nat :=
  if 48 ≤ c.toNat ∧ c.toNat ≤ 57 then some (c.toNat - 48)
  else if 97 ≤ c.toNat ∧ c.toNat ≤ 102 then some (c.toNat - 87)
  else if 65 ≤ c.toNat ∧ c.toNat ≤ 70 then some (c.toNat - 55)
  else none

/-- Tokenize for `unquote`: each valid `%XX` becomes a byte, everything
else stays a character; a `%` not followed by two hex digits is literal. -/
def pctTokens : List Char → List (Sum Nat Char)
  | '%' :: c1 :: c2 :: rest =>
      match hexVal c1, hexVal c2 with
      | some a, some b => Sum.inl (16 * a + b) :: pctTokens rest
      | _, _ => Sum.inr '%' :: pctTokens (c1 :: c2 :: rest)
  | c :: rest => Sum.inr c :: pctTokens rest
  | [] => []

/-- U+FFFD, the replacement character (`errors="replace"`). -/
def repl : Char := Char.ofNat 65533

def isCont (b : Nat) : Bool := 128 ≤ b && b ≤ 191

/-- UTF-8 decoding with replacement on error, fuel-structured. -/
def utf8DecAux : Nat → List Nat → List Char
  | 0, _ => []
  | _, [] => []
  | fuel + 1, b :: rest =>
      if b < 128 then Char.ofNat b :: utf8DecAux fuel rest
      else if 194 ≤ b ∧ b ≤ 223 then
        match rest with
        | b2 :: rest2 =>
            if isCont b2 then
              Char.ofNat ((b - 192) * 64 + (b2 - 128)) :: utf8DecAux fuel rest2
            else repl :: utf8DecAux fuel rest
        | [] => [repl]
      else if 224 ≤ b ∧ b ≤ 239 then
        match rest with
        | b2 :: b3 :: rest3 =>
            if ((b = 224 && (160 ≤ b2 && b2 ≤ 191)) ||
                (b = 237 && (128 ≤ b2 && b2 ≤ 159)) ||
                (b ≠ 224 && b ≠ 237 && isCont b2)) && isCont b3 then
              Char.ofNat ((b - 224) * 4096 + (b2 - 128) * 64 + (b3 - 128)) ::
                utf8DecAux fuel rest3
            else repl :: utf8DecAux fuel rest
        | _ => repl :: utf8DecAux fuel rest
      else if 240 ≤ b ∧ b ≤ 244 then
        match rest with
        | b2 :: b3 :: b4 :: rest4 =>
            if ((b = 240 && (144 ≤ b2 && b2 ≤ 191)) ||
                (b = 244 && (128 ≤ b2 && b2 ≤ 143)) ||
                (b ≠ 240 && b ≠ 244 && isCont b2)) && isCont b3 && isCont b4 then
              Char.ofNat ((b - 240) * 262144 + (b2 - 128) * 4096 +
                  (b3 - 128) * 64 + (b4 - 128)) :: utf8DecAux fuel rest4
            else repl :: utf8DecAux fuel rest
        | _ => repl :: utf8DecAux fuel rest
      else repl :: utf8DecAux fuel rest

def utf8DecodeReplace (bs : List Nat) : List Char :=
  utf8DecAux bs.length bs

/-- Gather the leading run of byte tokens. -/
def takeByteRun : List (Sum Nat Char) → List Nat × List (Sum Nat Char)
  | Sum.inl b :: rest =>
      let (bs, r) := takeByteRun rest
      (b :: bs, r)
  | l => ([], l)

/-- Decode a token list: maximal byte runs are UTF-8-decoded together. -/
def groupDecAux : Nat → List (Sum Nat Char) → List Char
  | 0, _ => []
  | _, [] => []
  | fuel + 1, Sum.inr c :: rest => c :: groupDecAux fuel rest
  | fuel + 1, Sum.inl b :: rest =>
      let (bs, r) := takeByteRun rest
      utf8DecodeReplace (b :: bs) ++ groupDecAux fuel r

/-- `urllib.parse.unquote` with default UTF-8/replace semantics. -/
def unquote (s : String) : String :=
  let toks := pctTokens s.data
  String.mk (groupDecAux toks.length toks)

/-- `+` to space, applied to names and values by `parse_qs`. -/
def plusToSpace (cs : List Char) : List Char :=
  cs.map (fun c => if c = '+' then ' ' else c)

def unquotePlus (s : String) : String :=
  unquote (String.mk (plusToSpace s.data))

/-- Split a character list at every occurrence of `c`. -/
def splitOnChar (c : Char) : List Char → List (List Char)
  | [] => [[]]
  | x :: rest =>
      let r := splitOnChar c rest
      if x = c then [] :: r
      else
        match r with
        | [] => [[x]]
        | s :: ss => (x :: s) :: ss

/-- Split at the first occurrence of the pattern `p` (Python
`str.split(p, 1)` / `str.replace(p, new, 1)` both build on this). -/
def splitSub (p : List Char) : List Char → Option (List Char × List Char)
  | [] => if p.isPrefixOf ([] : List Char) then some ([], []) else none
  | c :: rest =>
      if p.isPrefixOf (c :: rest) then some ([], (c :: rest).drop p.length)
      else (splitSub p rest).map (fun pr => (c :: pr.1, pr.2))

/-- One `name=value` segment of a query string, as `parse_qsl` with
`keep_blank_values=True` treats it: empty segments are skipped, a missing
`=` yields an empty value, names and values are plus/percent-decoded. -/
def parseQsPair (seg : List Char) : Option (String × String) :=
  if seg = [] then none
  else
    match splitSub ['='] seg with
    | some (n, v) => some (unquotePlus (String.mk n), unquotePlus (String.mk v))
    | none => some (unquotePlus (String.mk seg), "")

/-- `urllib.parse.parse_qs` restricted to first values, in query order
(the caller keeps `values[0]` per key, i.e. the first occurrence). -/
def parseQs (query : List Char) : List (String × String) :=
  (splitOnChar '&' query).filterMap parseQsPair

/-- `startswith`, on the underlying characters. -/
def strStarts (s p : String) : Bool :=
  p.data.isPrefixOf s.data

/-- `str.replace(old, new, 1)`: replace the first occurrence only. -/
def replaceFirst (s old new : String) : String :=
  match splitSub old.data s.data with
  | some (a, b) => String.mk (a ++ new.data ++ b)
  | none => s

/-- `parse_url_params` from `yt_mpv/utils/url.py`. -/
def parse_url_params (url : String) : List (String × String) :=
  let cs := url.data
  if strStarts url "x-yt-mpv://" || strStarts url "x-yt-mpvs://" then
    match splitSub ("//".data) cs with
    | some (_, partAfter) =>
        match splitSub ['?'] partAfter with
        | some (_, q) => parseQs q
        | none => []
    | none => []
  else if cs.contains '?' then
    match splitSub ['?'] cs with
    | some (_, q) => parseQs q
    | none => []
  else []

/-- `get_real_url` from `yt_mpv/utils/url.py`: if a `url` parameter is
present return its (further) percent-decoded value, otherwise rewrite the
custom scheme prefix, checking `x-yt-mpvs:` before `x-yt-mpv:` as the
scheme-replacement dict does. -/
def get_real_url (raw : String) : String :=
  match (parse_url_params raw).lookup "url" with
  | some v => unquote v
  | none =>
      if strStarts raw "x-yt-mpvs:" then replaceFirst raw "x-yt-mpvs:" "https:"
      else if strStarts raw "x-yt-mpv:" then replaceFirst raw "x-yt-mpv:" "http:"
      else raw

/-- URL handling portion of `main` in `yt_mpv/core/launcher.py` (lines
54-67): the effective URL and the should-archive flag. -/
def normalize_input (raw : String) : String × Bool :=
  let params := parse_url_params raw
  let shouldArchive := ((params.lookup "archive").getD "1") == "1"
  match params.lookup "url" with
  | some v => (unquote v, shouldArchive)
  | none => (get_real_url raw, shouldArchive)

/-! ## Existence checker (`yt_mpv/archive/archive_org.py`, `check_archive_status`)

The `internetarchive` library call is external; its possible outcomes are
an oracle: the import may fail (`ImportError`), the lookup may raise, or
it reports the item present/absent. The operator identity is passed
explicitly (the code reads `os.getlogin()` when absent). -/

inductive IAOutcome
  | importError
  | raised
  | found
  | absent
deriving DecidableEq

def check_archive_status (url username : String) : IAOutcome → Option String
  | IAOutcome.found =>
      some ("https://archive.org/details/" ++ generate_archive_id url username)
  | _ => none

/-! ## Metadata extractor (`yt_mpv/core/archive.py`, `extract_metadata`)

The sidecar info file is a JSON document; only its top-level keys are
consulted, so it is modelled as an association list of scalar/array
values (`none` models an unreadable or malformed file, i.e. `open` or
`json.load` raising). -/

inductive JVal
  | jnull
  | jbool (b : Bool)
  | jnum (n : Int)
  | jstr (s : String)
  | jarr (xs : List String)
deriving DecidableEq

/-- Python truthiness of a JSON value. -/
def truthy : JVal → Bool
  | JVal.jnull => false
  | JVal.jbool b => b
  | JVal.jnum n => n != 0
  | JVal.jstr s => s != ""
  | JVal.jarr xs => !xs.isEmpty

/-- `a or b or ... or dflt` over `data.get` results: the first truthy
value, else the final default (an absent key gives `None`, falsy). -/
def firstTruthy : List (Option JVal) → JVal → JVal
  | [], dflt => dflt
  | none :: rest, dflt => firstTruthy rest dflt
  | some v :: rest, dflt => if truthy v then v else firstTruthy rest dflt

def extract_metadata (info : Option (List (String × JVal))) (url : String) :
    List (String × JVal) :=
  match info with
  | some data =>
      let title := (data.lookup "title").getD (JVal.jstr "Untitled Video")
      let description := firstTruthy [data.lookup "description"] (JVal.jstr "")
      let tags :=
        firstTruthy [data.lookup "tags", data.lookup "categories"] (JVal.jarr [])
      let creator :=
        firstTruthy [data.lookup "uploader", data.lookup "channel"] (JVal.jstr "")
      let source := firstTruthy [data.lookup "webpage_url"] (JVal.jstr url)
      [("title", title), ("description", description), ("creator", creator),
       ("subject", tags), ("source", source), ("mediatype", JVal.jstr "movies"),
       ("collection", JVal.jstr "opensource_movies")]
  | none =>
      [("title", JVal.jstr "Unknown Video"), ("source", JVal.jstr url),
       ("mediatype", JVal.jstr "movies"),
       ("collection", JVal.jstr "opensource_movies")]

/-! ## Pipeline controller (`yt_mpv/core/launcher.py` `main` and
`yt_mpv/core/archive.py` `archive_url`)

External effects (subprocesses, the remote archive) are oracles; the
invocations the controller performs are recorded as an event trace. -/

inductive Ev
  | UpdatedYtDlp
  | PurgeRun
  | PlayRun
  | CheckRun
  | DownloadRun
  | UploadRun
  | CleanupRun
deriving DecidableEq

structure Oracles where
  depsOk : Bool
  purgeTick : Bool
  playOk : Bool
  checkResult : Option String
  downloadOk : Bool
  uploadOk : Bool
deriving DecidableEq

/-- `archive_url`: re-check existence, then download, upload and clean up. -/
def archive_url_run (o : Oracles) : Bool × List Ev :=
  if (o.checkResult).isSome then (true, [Ev.CheckRun])
  else if !o.downloadOk then (false, [Ev.CheckRun, Ev.DownloadRun])
  else if o.uploadOk then
    (true, [Ev.CheckRun, Ev.DownloadRun, Ev.UploadRun, Ev.CleanupRun])
  else (false, [Ev.CheckRun, Ev.DownloadRun, Ev.UploadRun])

/-- `re.match(r"^https?://", url)` of the launcher's validation step. -/
def validUrl (url : String) : Bool :=
  strStarts url "http://" || strStarts url "https://"

/-- `main` from `yt_mpv/core/launcher.py`: exit code and event trace. -/
def launcher_main (argv : List String) (o : Oracles) : Nat × List Ev :=
  match argv with
  | [] => (1, [])
  | raw :: _ =>
      let (url, shouldArchive) := normalize_input raw
      if !validUrl url then (1, [])
      else if !o.depsOk then (1, [])
      else
        let evs0 := [Ev.UpdatedYtDlp] ++ (if o.purgeTick then [Ev.PurgeRun] else [])
        if !o.playOk then (1, evs0 ++ [Ev.PlayRun])
        else if !shouldArchive then (0, evs0 ++ [Ev.PlayRun])
        else
          match o.checkResult with
          | some _ => (0, evs0 ++ [Ev.PlayRun, Ev.CheckRun])
          | none =>
              let (ok, aevs) := archive_url_run o
              (if ok then 0 else 1, evs0 ++ [Ev.PlayRun, Ev.CheckRun] ++ aevs)

/-! ## Cache manager (`yt_mpv/utils/cache.py`)

The filesystem is the cache-relevant state: a set of existing directories
and the directory entries, each entry carrying its directory, name,
regular-file flag, size and mtime. Deletion may fail (`OSError`); which
paths fail is an oracle `fails`. Ages are exact rationals. -/

structure FSFile where
  dir : String
  name : String
  isFile : Bool
  size : Nat
  mtime : Int
deriving DecidableEq

structure FS where
  dirs : List String
  files : List FSFile
deriving DecidableEq

/-- `CacheFileInfo` namedtuple: `(path, size, age_days, mtime)`; the path
is the `(directory, name)` pair. -/
structure CacheFileInfo where
  path : String × String
  size : Nat
  age_days : ℚ
  mtime : Int
deriving DecidableEq

/-- `(now - mtime) / (24 * 60 * 60)` as an exact rational (`Rat.divInt`
is definitionally the quotient and, unlike the field-division notation,
evaluates inside the kernel). -/
def ageDays (now : Int) (mtime : Int) : ℚ :=
  Rat.divInt (now - mtime) 86400

def mkInfo (now : Int) (f : FSFile) : CacheFileInfo :=
  ⟨(f.dir, f.name), f.size, ageDays now f.mtime, f.mtime⟩

/-- Oldest-first ordering: larger age sorts earlier. -/
def olderEq (a b : CacheFileInfo) : Prop := b.age_days ≤ a.age_days

instance : DecidableRel olderEq := fun a b =>
  inferInstanceAs (Decidable (b.age_days ≤ a.age_days))

/-- `_get_cache_file_info`: `[]` unless the directory exists, else the
entries that are regular files, with size/age/mtime, sorted oldest first
(Python sorts by age with `reverse=True`, a stable descending sort, which
`insertionSort` with `olderEq` realizes). -/
def _get_cache_file_info (fs : FS) (now : Int) (d : String) :
    List CacheFileInfo :=
  if d ∈ fs.dirs then
    List.insertionSort olderEq
      ((fs.files.filter (fun f => f.dir == d && f.isFile)).map (mkInfo now))
  else []

/-- Remove the entry at a path (`Path.unlink`). -/
def removeFile (fs : FS) (p : String × String) : FS :=
  { fs with files := fs.files.filter (fun g => !(g.dir == p.1 && g.name == p.2)) }

def fileExists (fs : FS) (p : String × String) : Bool :=
  fs.files.any (fun g => g.dir == p.1 && g.name == p.2)

/-- The body of the deletion loops of `purge_cache` / `clean_all_cache`:
delete the file if `cond` holds, counting files and bytes; an `OSError`
(`fails`) leaves the file and the counters untouched but does not stop
the loop. -/
def delStep (cond : CacheFileInfo → Bool) (fails : String → String → Bool)
    (st : FS × Nat × Nat) (it : CacheFileInfo) : FS × Nat × Nat :=
  if cond it then
    if fails it.path.1 it.path.2 then st
    else (removeFile st.1 it.path, st.2.1 + 1, st.2.2 + it.size)
  else st

/-- `purge_cache`: delete the cache files strictly older than
`max_age_days` days, returning `(files_deleted, bytes_freed)`. -/
def purge_cache (fs : FS) (fails : String → String → Bool) (now : Int)
    (d : String) (max_age_days : Int) : FS × Nat × Nat :=
  (_get_cache_file_info fs now d).foldl
    (delStep (fun it => decide ((max_age_days : ℚ) < it.age_days)) fails)
    (fs, 0, 0)

/-- `clean_all_cache`: delete every cache file, returning
`(files_deleted, bytes_freed)`. -/
def clean_all_cache (fs : FS) (fails : String → String → Bool) (now : Int)
    (d : String) : FS × Nat × Nat :=
  (_get_cache_file_info fs now d).foldl (delStep (fun _ => true) fails) (fs, 0, 0)

/-- `get_cache_info`: `(file count, total size, list of (path, age))`. -/
def get_cache_info (fs : FS) (now : Int) (d : String) :
    Nat × Nat × List ((String × String) × ℚ) :=
  let info := _get_cache_file_info fs now d
  (info.length, (info.map (fun it => it.size)).sum,
   info.map (fun it => (it.path, it.age_days)))

/-- `cleanup_cache_files` from `yt_mpv/utils/cache.py` (the identical
function also appears in `utils/fs.py`): best-effort deletion of the
video/info pair; a missing file is skipped, a failed deletion clears the
success flag but the loop continues. -/
def cleanup_cache_files (fs : FS) (fails : String → String → Bool)
    (video info : String × String) : FS × Bool :=
  [video, info].foldl
    (fun st p =>
      if fileExists st.1 p then
        if fails p.1 p.2 then (st.1, false)
        else (removeFile st.1 p, st.2)
      else st)
    (fs, true)

/-! ## Claim theorems -/

/-- C8: for every URL and operator identity, the existence checker returns
the archive's public detail URL for the derived identifier exactly when
the remote archive reports the item as existing, and returns `none` in
every other case — when the client library cannot be imported, when the
remote access raises, and when the item is absent; it is a total function
(never raises to its caller). -/
theorem claim_C8 (url user : String) :
    check_archive_status url user IAOutcome.importError = none ∧
    check_archive_status url user IAOutcome.raised = none ∧
    check_archive_status url user IAOutcome.absent = none ∧
    check_archive_status url user IAOutcome.found =
      some ("https://archive.org/details/" ++ generate_archive_id url user) :=
  ⟨rfl, rfl, rfl, rfl⟩

/-- C6: metadata extraction is total (the embedding of a function that
catches every exception); both the readable and the degraded branch carry
the fixed `mediatype`/`collection` constants; a readable sidecar with no
`tags`/`categories` yields `subject = []`, with no `uploader`/`channel`
yields `creator = ""`, and with no `webpage_url` falls back to the
original URL for `source`; an unreadable or malformed sidecar yields
exactly the minimal record keyed on the URL. -/
theorem claim_C6 (info : Option (List (String × JVal))) (url : String) :
    (extract_metadata info url).lookup "mediatype" = some (JVal.jstr "movies") ∧
    (extract_metadata info url).lookup "collection" =
      some (JVal.jstr "opensource_movies") ∧
    (∀ data, info = some data →
      data.lookup "tags" = none → data.lookup "categories" = none →
      (extract_metadata info url).lookup "subject" = some (JVal.jarr [])) ∧
    (∀ data, info = some data →
      data.lookup "uploader" = none → data.lookup "channel" = none →
      (extract_metadata info url).lookup "creator" = some (JVal.jstr "")) ∧
    (∀ data, info = some data → data.lookup "webpage_url" = none →
      (extract_metadata info url).lookup "source" = some (JVal.jstr url)) ∧
    (info = none →
      extract_metadata info url =
        [("title", JVal.jstr "Unknown Video"), ("source", JVal.jstr url),
         ("mediatype", JVal.jstr "movies"),
         ("collection", JVal.jstr "opensource_movies")]) := by
  cases info with
  | none =>
      refine ⟨by simp [extract_metadata, List.lookup],
        by simp [extract_metadata, List.lookup],
        ?_, ?_, ?_, fun _ => rfl⟩ <;> intro data h <;> simp at h
  | some data =>
      refine ⟨by simp [extract_metadata, List.lookup],
        by simp [extract_metadata, List.lookup],
        ?_, ?_, ?_, by intro h; simp at h⟩
      · intro data2 h h1 h2
        obtain rfl : data2 = data := by injection h.symm
        simp [extract_metadata, List.lookup, h1, h2, firstTruthy]
      · intro data2 h h1 h2
        obtain rfl : data2 = data := by injection h.symm
        simp [extract_metadata, List.lookup, h1, h2, firstTruthy]
      · intro data2 h h1
        obtain rfl : data2 = data := by injection h.symm
        simp [extract_metadata, List.lookup, h1, firstTruthy]

/-- Witness for C6: the repo's own minimal-fields test sidecar
(`{"title": "Minimal Video"}`). -/
theorem claim_C6_witness :
    (extract_metadata (some [("title", JVal.jstr "Minimal Video")])
        "https://example.com/video").lookup "subject" = some (JVal.jarr []) ∧
    (extract_metadata (some [("title", JVal.jstr "Minimal Video")])
        "https://example.com/video").lookup "creator" = some (JVal.jstr "") ∧
    (extract_metadata (some [("title", JVal.jstr "Minimal Video")])
        "https://example.com/video").lookup "source" =
      some (JVal.jstr "https://example.com/video") :=
  ⟨(claim_C6 (some [("title", JVal.jstr "Minimal Video")])
      "https://example.com/video").2.2.1 _ rfl (by decide) (by decide),
   (claim_C6 (some [("title", JVal.jstr "Minimal Video")])
      "https://example.com/video").2.2.2.1 _ rfl (by decide) (by decide),
   (claim_C6 (some [("title", JVal.jstr "Minimal Video")])
      "https://example.com/video").2.2.2.2.1 _ rfl (by decide)⟩

/-- C4 fails as stated: the launcher percent-decodes the `url` parameter
twice (once inside `parse_qs`, once via the explicit `unquote`), so on a
parameter value `%2531` — whose percent-decoded value is `%31` — the
effective URL comes out as `1` instead. -/
theorem claim_C4_counterexample :
    (normalize_input "https://x/?url=%2531").1 = "1" ∧
    unquote "%2531" = "%31" ∧ ("1" : String) ≠ "%31" :=
  ⟨by decide, by decide, by decide⟩

/-- C4 (amended): when a `url` query parameter is present, the effective
URL is `unquote` applied to the query-decoded parameter value — i.e. the
raw parameter text undergoes plus-to-space conversion and two rounds of
percent-decoding, which for singly-encoded values equals the
percent-decoded value — and the `archive` parameter (defaulting to `"1"`
when absent) determines the should-archive flag; in particular the
spec's example yields `("https://y.test/v", false)`. -/
theorem claim_C4 :
    (∀ raw v, (parse_url_params raw).lookup "url" = some v →
      normalize_input raw =
        (unquote v,
         ((parse_url_params raw).lookup "archive").getD "1" == "1")) ∧
    normalize_input "https://x/?url=https%3A%2F%2Fy.test%2Fv&archive=0" =
      ("https://y.test/v", false) := by
  constructor
  · intro raw v h
    simp [normalize_input, h]
  · decide

/-- Witness for C4 at the spec's example input. -/
theorem claim_C4_witness :
    normalize_input "https://x/?url=https%3A%2F%2Fy.test%2Fv&archive=0" =
      (unquote "https://y.test/v",
       ((parse_url_params
          "https://x/?url=https%3A%2F%2Fy.test%2Fv&archive=0").lookup
            "archive").getD "1" == "1") :=
  claim_C4.1 "https://x/?url=https%3A%2F%2Fy.test%2Fv&archive=0"
    "https://y.test/v" (by decide)

/-- C5 fails as stated: `get_real_url` does not strip the custom
`archive` parameter — the whole query string survives the scheme rewrite
verbatim. -/
theorem claim_C5_counterexample :
    get_real_url "x-yt-mpv://host/path?a=1&archive=0" =
      "http://host/path?a=1&archive=0" ∧
    get_real_url "x-yt-mpv://host/path?a=1&archive=0" ≠
      "http://host/path?a=1" :=
  ⟨by decide, by decide⟩

lemma splitSub_self_append (p l : List Char) (hp : p ≠ []) :
    splitSub p (p ++ l) = some ([], l) := by
  match p with
  | c :: cs =>
      have hpre : (c :: cs).isPrefixOf ((c :: cs) ++ l) = true := by
        rw [List.isPrefixOf_iff_prefix]
        exact List.prefix_append _ _
      simp [splitSub, hpre, List.drop_left]

lemma strStarts_append (lit rest : String) :
    strStarts (lit ++ rest) lit = true := by
  unfold strStarts
  rw [String.data_append, List.isPrefixOf_iff_prefix]
  exact List.prefix_append _ _

lemma replaceFirst_append (lit new rest : String) (h : lit.data ≠ []) :
    replaceFirst (lit ++ rest) lit new = new ++ rest := by
  unfold replaceFirst
  rw [String.data_append, splitSub_self_append _ _ h]
  apply String.ext
  simp [String.data_append]

lemma mpvs_not_starts (rest : String) :
    strStarts ("x-yt-mpv:" ++ rest) "x-yt-mpvs:" = false := by
  unfold strStarts
  rw [String.data_append]
  have h1 : ("x-yt-mpvs:").data =
      ['x', '-', 'y', 't', '-', 'm', 'p', 'v', 's', ':'] := rfl
  have h2 : ("x-yt-mpv:").data =
      ['x', '-', 'y', 't', '-', 'm', 'p', 'v', ':'] := rfl
  rw [h1, h2]
  simp [List.isPrefixOf]

/-- C5 (amended): on a raw URL without a `url` query parameter, the
normalizer rewrites a leading `x-yt-mpvs:` to `https:` and a leading
`x-yt-mpv:` to `http:` and leaves every other URL entirely unchanged; in
all cases the query string — including the custom `archive` parameter,
which is NOT stripped — is preserved verbatim after the scheme prefix.
(The legacy variant in `yt_mpv/utils.py` does strip `archive=`; the
active `yt_mpv/utils/url.py` variant proved here does not.) -/
theorem claim_C5 (raw : String)
    (hnu : (parse_url_params raw).lookup "url" = none) :
    (∀ rest, raw = "x-yt-mpvs:" ++ rest → get_real_url raw = "https:" ++ rest) ∧
    (∀ rest, raw = "x-yt-mpv:" ++ rest → get_real_url raw = "http:" ++ rest) ∧
    (strStarts raw "x-yt-mpvs:" = false → strStarts raw "x-yt-mpv:" = false →
      get_real_url raw = raw) := by
  refine ⟨?_, ?_, ?_⟩
  · rintro rest rfl
    rw [get_real_url, hnu]
    rw [if_pos (strStarts_append _ _)]
    exact replaceFirst_append _ _ _ (by decide)
  · rintro rest rfl
    rw [get_real_url, hnu]
    rw [if_neg (by rw [mpvs_not_starts]; exact Bool.false_ne_true)]
    rw [if_pos (strStarts_append _ _)]
    exact replaceFirst_append _ _ _ (by decide)
  · intro h1 h2
    rw [get_real_url, hnu]
    rw [if_neg (by rw [h1]; exact Bool.false_ne_true),
        if_neg (by rw [h2]; exact Bool.false_ne_true)]

/-- Witness for C5: the scheme rewrites on the repo's own test URLs, and
pass-through of a standard URL. -/
theorem claim_C5_witness :
    get_real_url "x-yt-mpvs://example.com" = "https://example.com" ∧
    get_real_url "x-yt-mpv://example.com" = "http://example.com" ∧
    get_real_url "https://example.com" = "https://example.com" :=
  ⟨by
    have h := (claim_C5 "x-yt-mpvs://example.com" (by decide)).1
      "//example.com" (by decide)
    simpa using h,
   by
    have h := (claim_C5 "x-yt-mpv://example.com" (by decide)).2.1
      "//example.com" (by decide)
    simpa using h,
   (claim_C5 "https://example.com" (by decide)).2.2 (by decide) (by decide)⟩

/-- C2: in every run of the pipeline controller in which the existence
check reports the item as already archived, the controller exits with
code 0 and the download orchestrator is never invoked; likewise
`archive_url`'s own re-check short-circuits to success without a
download. -/
theorem claim_C2 (argv : List String) (o : Oracles) (p : String)
    (hc : o.checkResult = some p)
    (hrun : Ev.CheckRun ∈ (launcher_main argv o).2) :
    (launcher_main argv o).1 = 0 ∧
    Ev.DownloadRun ∉ (launcher_main argv o).2 ∧
    (archive_url_run o).1 = true ∧
    Ev.DownloadRun ∉ (archive_url_run o).2 := by
  have ha : archive_url_run o = (true, [Ev.CheckRun]) := by
    simp [archive_url_run, hc]
  cases argv with
  | nil => simp [launcher_main] at hrun
  | cons raw rest =>
      rcases hn : normalize_input raw with ⟨url, sa⟩
      simp only [launcher_main, hn] at hrun ⊢
      cases hv : validUrl url <;> simp only [hv] at hrun ⊢
      · simp at hrun
      · cases hd : o.depsOk <;> simp only [hd] at hrun ⊢
        · simp at hrun
        · cases hp : o.playOk <;> cases hpt : o.purgeTick <;>
            cases sa <;>
            simp only [hp, hpt, hc, ha] at hrun ⊢ <;>
            simp_all

/-- Witness for C2: a concrete oracle world in which the item exists. -/
theorem claim_C2_witness :
    (launcher_main ["https://example.com/v"]
      ⟨true, false, true, some "https://archive.org/details/x", true, true⟩).1
        = 0 ∧
    Ev.DownloadRun ∉ (launcher_main ["https://example.com/v"]
      ⟨true, false, true, some "https://archive.org/details/x", true, true⟩).2 ∧
    (archive_url_run
      ⟨true, false, true, some "https://archive.org/details/x", true, true⟩).1
        = true ∧
    Ev.DownloadRun ∉ (archive_url_run
      ⟨true, false, true, some "https://archive.org/details/x", true, true⟩).2 :=
  claim_C2 ["https://example.com/v"]
    ⟨true, false, true, some "https://archive.org/details/x", true, true⟩
    "https://archive.org/details/x" rfl (by decide)

/-! ### Cache-manager lemmas -/

lemma mem_removeFile (fs : FS) (q : String × String) (g : FSFile) :
    g ∈ (removeFile fs q).files ↔ g ∈ fs.files ∧ (g.dir, g.name) ≠ q := by
  simp only [removeFile, List.mem_filter, Bool.not_eq_true', and_congr_right_iff]
  intro _
  cases q with
  | mk qd qn =>
      constructor
      · intro h hq
        rw [Prod.mk.injEq] at hq
        simp [hq.1, hq.2] at h
      · intro h
        rw [Bool.and_eq_false_iff]
        by_contra hb
        push_neg at hb
        apply h
        have h1 : g.dir = qd := by
          have := hb.1; simpa using this
        have h2 : g.name = qn := by
          have := hb.2; simpa using this
        simp [h1, h2]

lemma fileExists_iff (fs : FS) (q : String × String) :
    fileExists fs q = true ↔ ∃ g ∈ fs.files, (g.dir, g.name) = q := by
  cases q with
  | mk qd qn =>
      simp only [fileExists, List.any_eq_true, Bool.and_eq_true, beq_iff_eq,
        Prod.mk.injEq]

lemma fileExists_removeFile_ne (fs : FS) (pq q : String × String)
    (h : pq ≠ q) : fileExists (removeFile fs pq) q = fileExists fs q := by
  cases hq : fileExists fs q with
  | true =>
      rw [fileExists_iff] at hq ⊢
      obtain ⟨g, hg, hgq⟩ := hq
      exact ⟨g, (mem_removeFile fs pq g).mpr ⟨hg, by rw [hgq]; exact fun e => h e.symm⟩, hgq⟩
  | false =>
      rw [Bool.eq_false_iff] at hq ⊢
      intro hmem
      apply hq
      rw [fileExists_iff] at hmem ⊢
      obtain ⟨g, hg, hgq⟩ := hmem
      exact ⟨g, ((mem_removeFile fs pq g).mp hg).1, hgq⟩

lemma fileExists_removeFile_self (fs : FS) (q : String × String) :
    fileExists (removeFile fs q) q = false := by
  rw [Bool.eq_false_iff]
  intro hmem
  rw [fileExists_iff] at hmem
  obtain ⟨g, hg, hgq⟩ := hmem
  exact ((mem_removeFile fs q g).mp hg).2 hgq

/-- C7: `cleanup_cache_files` deletes each of the two files that exists,
treats a missing file as success, attempts the second deletion even when
the first fails, and returns `true` exactly when no attempted deletion
failed; in particular when both are missing it is a no-op returning
success. -/
theorem claim_C7 (fs : FS) (fails : String → String → Bool)
    (v i : String × String) (hvi : v ≠ i) :
    ((cleanup_cache_files fs fails v i).2 = true ↔
      ((fileExists fs v = true → fails v.1 v.2 = false) ∧
       (fileExists fs i = true → fails i.1 i.2 = false))) ∧
    (∀ g ∈ fs.files, (g.dir, g.name) ≠ v → (g.dir, g.name) ≠ i →
      g ∈ (cleanup_cache_files fs fails v i).1.files) ∧
    (∀ g ∈ (cleanup_cache_files fs fails v i).1.files, g ∈ fs.files) ∧
    (fileExists fs v = true → fails v.1 v.2 = false →
      fileExists (cleanup_cache_files fs fails v i).1 v = false) ∧
    (fileExists fs i = true → fails i.1 i.2 = false →
      fileExists (cleanup_cache_files fs fails v i).1 i = false) ∧
    (fileExists fs v = false → fileExists fs i = false →
      cleanup_cache_files fs fails v i = (fs, true)) := by
  simp only [cleanup_cache_files, List.foldl_cons, List.foldl_nil]
  cases hA : fileExists fs v with
  | false =>
      simp only [Bool.false_eq_true, if_false]
      cases hB : fileExists fs i with
      | false =>
          simp only [Bool.false_eq_true, if_false]
          refine ⟨by simp [hA, hB], fun g hg _ _ => hg, fun g hg => hg,
            by simp [hA], by simp [hB], by simp⟩
      | true =>
          simp only [if_true]
          cases hFi : fails i.1 i.2 with
          | false =>
              simp only [Bool.false_eq_true, if_false]
              refine ⟨by simp [hA, hB, hFi], ?_, ?_, by simp [hA], ?_, by simp [hB]⟩
              · intro g hg _ hgi
                exact (mem_removeFile fs i g).mpr ⟨hg, hgi⟩
              · intro g hg
                exact ((mem_removeFile fs i g).mp hg).1
              · intro _ _
                exact fileExists_removeFile_self fs i
          | true =>
              simp only [if_true]
              refine ⟨by simp [hA, hB, hFi], fun g hg _ _ => hg, fun g hg => hg,
                by simp [hA], by simp [hFi], by simp [hB]⟩
  | true =>
      simp only [if_true]
      cases hFv : fails v.1 v.2 with
      | true =>
          simp only [if_true]
          cases hB : fileExists fs i with
          | false =>
              simp only [Bool.false_eq_true, if_false]
              refine ⟨by simp [hA, hFv], fun g hg _ _ => hg, fun g hg => hg,
                by simp [hFv], by simp [hB], by simp [hA]⟩
          | true =>
              simp only [if_true]
              cases hFi : fails i.1 i.2 with
              | false =>
                  simp only [Bool.false_eq_true, if_false]
                  refine ⟨by simp [hFv], ?_, ?_, by simp [hFv], ?_, by simp [hA]⟩
                  · intro g hg _ hgi
                    exact (mem_removeFile fs i g).mpr ⟨hg, hgi⟩
                  · intro g hg
                    exact ((mem_removeFile fs i g).mp hg).1
                  · intro _ _
                    exact fileExists_removeFile_self fs i
              | true =>
                  simp only [if_true]
                  refine ⟨by simp [hFv], fun g hg _ _ => hg, fun g hg => hg,
                    by simp [hFv], by simp [hFi], by simp [hA]⟩
      | false =>
          simp only [Bool.false_eq_true, if_false]
          have hBkeep : fileExists (removeFile fs v) i = fileExists fs i :=
            fileExists_removeFile_ne fs v i hvi
          rw [hBkeep]
          cases hB : fileExists fs i with
          | false =>
              simp only [Bool.false_eq_true, if_false]
              refine ⟨by simp [hA, hB, hFv], ?_, ?_, ?_, by simp [hB], by simp [hA]⟩
              · intro g hg hgv _
                exact (mem_removeFile fs v g).mpr ⟨hg, hgv⟩
              · intro g hg
                exact ((mem_removeFile fs v g).mp hg).1
              · intro _ _
                exact fileExists_removeFile_self fs v
          | true =>
              simp only [if_true]
              cases hFi : fails i.1 i.2 with
              | false =>
                  simp only [Bool.false_eq_true, if_false]
                  refine ⟨by simp [hA, hB, hFv, hFi], ?_, ?_, ?_, ?_, by simp [hA]⟩
                  · intro g hg hgv hgi
                    exact (mem_removeFile _ i g).mpr
                      ⟨(mem_removeFile fs v g).mpr ⟨hg, hgv⟩, hgi⟩
                  · intro g hg
                    exact ((mem_removeFile fs v g).mp
                      ((mem_removeFile _ i g).mp hg).1).1
                  · intro _ _
                    rw [fileExists_removeFile_ne _ i v (Ne.symm hvi)]
                    exact fileExists_removeFile_self fs v
                  · intro _ _
                    exact fileExists_removeFile_self _ i
              | true =>
                  simp only [if_true]
                  refine ⟨by simp [hB, hFi], ?_, ?_, ?_, by simp [hFi], by simp [hA]⟩
                  · intro g hg hgv _
                    exact (mem_removeFile fs v g).mpr ⟨hg, hgv⟩
                  · intro g hg
                    exact ((mem_removeFile fs v g).mp hg).1
                  · intro _ _
                    exact fileExists_removeFile_self fs v

/-- Witness for C7: one existing video file, missing info file, no
deletion failures — the pair cleanup succeeds and deletes the video. -/
theorem claim_C7_witness :
    (cleanup_cache_files ⟨["cache"], [⟨"cache", "v.mp4", true, 10, 0⟩]⟩
      (fun _ _ => false) ("cache", "v.mp4") ("cache", "v.info.json")).2 = true ∧
    fileExists (cleanup_cache_files ⟨["cache"], [⟨"cache", "v.mp4", true, 10, 0⟩]⟩
      (fun _ _ => false) ("cache", "v.mp4") ("cache", "v.info.json")).1
        ("cache", "v.mp4") = false := by
  have h := claim_C7 ⟨["cache"], [⟨"cache", "v.mp4", true, 10, 0⟩]⟩
    (fun _ _ => false) ("cache", "v.mp4") ("cache", "v.info.json") (by decide)
  exact ⟨h.1.mpr ⟨fun _ => rfl, fun _ => rfl⟩,
    h.2.2.2.1 (by decide) rfl⟩

/-- C10: on a path that does not exist (or is not a directory), the cache
query returns `(0, 0, [])` and both deletion operations return `(0, 0)`
leaving the filesystem untouched, and none of them raises. -/
theorem claim_C10 (fs : FS) (fails : String → String → Bool) (now : Int)
    (d : String) (t : Int) (hd : d ∉ fs.dirs) :
    get_cache_info fs now d = (0, 0, []) ∧
    purge_cache fs fails now d t = (fs, 0, 0) ∧
    clean_all_cache fs fails now d = (fs, 0, 0) := by
  have hscan : _get_cache_file_info fs now d = [] := by
    simp [_get_cache_file_info, hd]
  refine ⟨?_, ?_, ?_⟩
  · simp [get_cache_info, hscan]
  · simp [purge_cache, hscan]
  · simp [clean_all_cache, hscan]

/-- Witness for C10: a filesystem whose only directory is `cache`,
queried at the nonexistent path `missing`. -/
theorem claim_C10_witness :
    get_cache_info ⟨["cache"], [⟨"cache", "a", true, 5, 0⟩]⟩ 86400 "missing" =
      (0, 0, []) ∧
    purge_cache ⟨["cache"], [⟨"cache", "a", true, 5, 0⟩]⟩ (fun _ _ => false)
      86400 "missing" 2 = (⟨["cache"], [⟨"cache", "a", true, 5, 0⟩]⟩, 0, 0) ∧
    clean_all_cache ⟨["cache"], [⟨"cache", "a", true, 5, 0⟩]⟩ (fun _ _ => false)
      86400 "missing" = (⟨["cache"], [⟨"cache", "a", true, 5, 0⟩]⟩, 0, 0) :=
  claim_C10 ⟨["cache"], [⟨"cache", "a", true, 5, 0⟩]⟩ (fun _ _ => false)
    86400 "missing" 2 (by decide)

/-! ### Characterization of the deletion loops -/

lemma foldl_delStep_spec (cond : CacheFileInfo → Bool)
    (fails : String → String → Bool) (items : List CacheFileInfo) :
    ∀ (fs₀ : FS) (c₀ b₀ : Nat),
    (items.foldl (delStep cond fails) (fs₀, c₀, b₀)).1.dirs = fs₀.dirs ∧
    (items.foldl (delStep cond fails) (fs₀, c₀, b₀)).1.files =
      fs₀.files.filter (fun g =>
        !(items.any (fun it =>
          (g.dir == it.path.1 && g.name == it.path.2) &&
            (cond it && !fails it.path.1 it.path.2)))) ∧
    (items.foldl (delStep cond fails) (fs₀, c₀, b₀)).2.1 =
      c₀ + (items.filter
        (fun it => cond it && !fails it.path.1 it.path.2)).length ∧
    (items.foldl (delStep cond fails) (fs₀, c₀, b₀)).2.2 =
      b₀ + ((items.filter
        (fun it => cond it && !fails it.path.1 it.path.2)).map
          (fun it => it.size)).sum := by
  induction items with
  | nil => intro fs₀ c₀ b₀; simp
  | cons it rest ih =>
      intro fs₀ c₀ b₀
      simp only [List.foldl_cons]
      by_cases hc : cond it = true
      · by_cases hf : fails it.path.1 it.path.2 = true
        · have hstep : delStep cond fails (fs₀, c₀, b₀) it = (fs₀, c₀, b₀) := by
            simp [delStep, hc, hf]
          rw [hstep]
          obtain ⟨ih1, ih2, ih3, ih4⟩ := ih fs₀ c₀ b₀
          refine ⟨ih1, ?_, ?_, ?_⟩
          · rw [ih2]
            apply List.filter_congr
            intro g _
            simp [List.any_cons, hc, hf]
          · rw [ih3, List.filter_cons, if_neg (by simp [hc, hf])]
          · rw [ih4, List.filter_cons, if_neg (by simp [hc, hf])]
        · have hstep : delStep cond fails (fs₀, c₀, b₀) it =
              (removeFile fs₀ it.path, c₀ + 1, b₀ + it.size) := by
            simp [delStep, hc, hf]
          rw [hstep]
          obtain ⟨ih1, ih2, ih3, ih4⟩ :=
            ih (removeFile fs₀ it.path) (c₀ + 1) (b₀ + it.size)
          refine ⟨ih1, ?_, ?_, ?_⟩
          · rw [ih2]
            show (removeFile fs₀ it.path).files.filter _ = _
            unfold removeFile
            rw [List.filter_filter]
            apply List.filter_congr
            intro g _
            simp only [List.any_cons, hc, hf, Bool.not_false, Bool.and_true,
              Bool.true_and, Bool.not_or, Bool.and_comm]
          · rw [ih3, List.filter_cons, if_pos (by simp [hc, hf])]
            simp only [List.length_cons]
            omega
          · rw [ih4, List.filter_cons, if_pos (by simp [hc, hf])]
            simp only [List.map_cons, List.sum_cons]
            omega
      · have hstep : delStep cond fails (fs₀, c₀, b₀) it = (fs₀, c₀, b₀) := by
          simp [delStep, hc]
        rw [hstep]
        obtain ⟨ih1, ih2, ih3, ih4⟩ := ih fs₀ c₀ b₀
        refine ⟨ih1, ?_, ?_, ?_⟩
        · rw [ih2]
          apply List.filter_congr
          intro g _
          simp [List.any_cons, hc]
        · rw [ih3, List.filter_cons, if_neg (by simp [hc])]
        · rw [ih4, List.filter_cons, if_neg (by simp [hc])]

instance : IsTotal CacheFileInfo olderEq :=
  ⟨fun a b => le_total b.age_days a.age_days⟩

instance : IsTrans CacheFileInfo olderEq :=
  ⟨fun _ _ _ h1 h2 => le_trans h2 h1⟩

lemma scan_perm (fs : FS) (now : Int) (d : String) (hd : d ∈ fs.dirs) :
    (_get_cache_file_info fs now d).Perm
      ((fs.files.filter (fun f => f.dir == d && f.isFile)).map (mkInfo now)) := by
  simp only [_get_cache_file_info, if_pos hd]
  exact List.perm_insertionSort _ _

lemma scan_sorted (fs : FS) (now : Int) (d : String) :
    (_get_cache_file_info fs now d).Sorted olderEq := by
  unfold _get_cache_file_info
  split
  · exact List.sorted_insertionSort _ _
  · exact List.sorted_nil

/-- On members of `fs.files`, matching any scanned entry by path plus a
property `q` of its info record is the same as being a regular file of
the directory whose own info record satisfies `q` (path uniqueness makes
the correspondence exact). -/
lemma any_scan_eq (fs : FS) (now : Int) (d : String) (hd : d ∈ fs.dirs)
    (hnd : (fs.files.map (fun f => (f.dir, f.name))).Nodup)
    (q : CacheFileInfo → Bool) (g : FSFile) (hg : g ∈ fs.files) :
    ((_get_cache_file_info fs now d).any (fun it =>
        (g.dir == it.path.1 && g.name == it.path.2) && q it))
      = ((g.dir == d) && g.isFile && q (mkInfo now g)) := by
  apply Bool.coe_iff_coe.mp
  constructor
  · intro hl
    rw [List.any_eq_true] at hl
    obtain ⟨it, hit, hcond⟩ := hl
    rw [(scan_perm fs now d hd).mem_iff, List.mem_map] at hit
    obtain ⟨f, hf, rfl⟩ := hit
    rw [List.mem_filter] at hf
    obtain ⟨hfmem, hfd⟩ := hf
    simp only [mkInfo, Bool.and_eq_true, beq_iff_eq] at hcond hfd ⊢
    have hfg : f = g := by
      apply List.inj_on_of_nodup_map hnd hfmem hg
      simp [hcond.1.1, hcond.1.2]
    subst hfg
    exact ⟨⟨hfd.1, hfd.2⟩, hcond.2⟩
  · intro hr
    rw [List.any_eq_true]
    simp only [Bool.and_eq_true, beq_iff_eq] at hr
    refine ⟨mkInfo now g, ?_, ?_⟩
    · rw [(scan_perm fs now d hd).mem_iff, List.mem_map]
      exact ⟨g, List.mem_filter.mpr ⟨hg, by simp [hr.1.1, hr.1.2]⟩, rfl⟩
    · rw [Bool.and_eq_true]
      exact ⟨by simp [mkInfo], hr.2⟩

/-- Shared characterization of the cache deletion loops: for a loop over
the scan of an existing directory with duplicate-free paths, the final
filesystem keeps exactly the entries that are not (regular files of the
directory satisfying `cond` whose deletion succeeds), the directory set
is untouched, and the returned count/bytes tally exactly the successful
deletions. `cond` abstracts the age test (`purge_cache`) or the constant
true (`clean_all_cache`). -/
lemma delLoop_spec (fs : FS) (fails : String → String → Bool) (now : Int)
    (d : String) (cond : CacheFileInfo → Bool) (hd : d ∈ fs.dirs)
    (hnd : (fs.files.map (fun f => (f.dir, f.name))).Nodup) :
    ((_get_cache_file_info fs now d).foldl (delStep cond fails)
        (fs, 0, 0)).1.dirs = fs.dirs ∧
    ((_get_cache_file_info fs now d).foldl (delStep cond fails)
        (fs, 0, 0)).1.files =
      fs.files.filter (fun f =>
        !((f.dir == d) && f.isFile &&
          (cond (mkInfo now f) && !fails f.dir f.name))) ∧
    ((_get_cache_file_info fs now d).foldl (delStep cond fails)
        (fs, 0, 0)).2.1 =
      (fs.files.filter (fun f =>
        (f.dir == d) && f.isFile &&
          (cond (mkInfo now f) && !fails f.dir f.name))).length ∧
    ((_get_cache_file_info fs now d).foldl (delStep cond fails)
        (fs, 0, 0)).2.2 =
      ((fs.files.filter (fun f =>
        (f.dir == d) && f.isFile &&
          (cond (mkInfo now f) && !fails f.dir f.name))).map
            (fun f => f.size)).sum := by
  obtain ⟨h1, h2, h3, h4⟩ :=
    foldl_delStep_spec cond fails (_get_cache_file_info fs now d) fs 0 0
  have hfil : ((_get_cache_file_info fs now d).filter
      (fun it => cond it && !fails it.path.1 it.path.2)).Perm
      ((fs.files.filter (fun f =>
        (f.dir == d) && f.isFile &&
          (cond (mkInfo now f) && !fails f.dir f.name))).map (mkInfo now)) := by
    have hp := (scan_perm fs now d hd).filter
      (fun it => cond it && !fails it.path.1 it.path.2)
    rw [List.filter_map, List.filter_filter] at hp
    refine hp.trans (List.Perm.of_eq ?_)
    congr 1
    apply List.filter_congr
    intro f _
    simp only [Function.comp, mkInfo]
    simp [Bool.and_comm, Bool.and_left_comm, Bool.and_assoc]
  refine ⟨h1, ?_, ?_, ?_⟩
  · rw [h2]
    apply List.filter_congr
    intro g hg
    rw [any_scan_eq fs now d hd hnd
      (fun it => cond it && !fails it.path.1 it.path.2) g hg]
    simp only [mkInfo, Bool.and_assoc]
  · rw [h3, Nat.zero_add, hfil.length_eq, List.length_map]
  · rw [h4, Nat.zero_add]
    have := (hfil.map (fun it => it.size)).sum_eq
    rw [this, List.map_map]
    congr 1

/-- C3: with an existing directory of duplicate-free paths and no
deletion failures, `purge_cache` deletes exactly the regular files of the
directory strictly older than the threshold and returns their count and
total size; every younger-or-equal file is untouched, and a fresh scan
afterwards lists exactly the retained entries, still sorted oldest
first. -/
theorem claim_C3 (fs : FS) (now : Int) (d : String) (t : Int)
    (hd : d ∈ fs.dirs)
    (hnd : (fs.files.map (fun f => (f.dir, f.name))).Nodup) :
    (purge_cache fs (fun _ _ => false) now d t).1.files =
      fs.files.filter (fun f =>
        !((f.dir == d) && f.isFile && decide ((t : ℚ) < ageDays now f.mtime))) ∧
    (purge_cache fs (fun _ _ => false) now d t).2.1 =
      (fs.files.filter (fun f =>
        (f.dir == d) && f.isFile &&
          decide ((t : ℚ) < ageDays now f.mtime))).length ∧
    (purge_cache fs (fun _ _ => false) now d t).2.2 =
      ((fs.files.filter (fun f =>
        (f.dir == d) && f.isFile &&
          decide ((t : ℚ) < ageDays now f.mtime))).map (fun f => f.size)).sum ∧
    (_get_cache_file_info (purge_cache fs (fun _ _ => false) now d t).1
        now d).Perm
      ((_get_cache_file_info fs now d).filter
        (fun it => decide (it.age_days ≤ (t : ℚ)))) ∧
    (_get_cache_file_info (purge_cache fs (fun _ _ => false) now d t).1
        now d).Sorted olderEq := by
  have h := delLoop_spec fs (fun _ _ => false) now d
    (fun it => decide ((t : ℚ) < it.age_days)) hd hnd
  simp only [Bool.not_false, Bool.and_true, mkInfo] at h
  obtain ⟨h1, h2, h3, h4⟩ := h
  have hfe : (purge_cache fs (fun _ _ => false) now d t).1.files =
      fs.files.filter (fun f =>
        !((f.dir == d) && f.isFile &&
          decide ((t : ℚ) < ageDays now f.mtime))) := by
    rw [purge_cache, h2]
  refine ⟨hfe, ?_, ?_, ?_, scan_sorted _ now d⟩
  · rw [purge_cache, h3]
  · rw [purge_cache, h4]
  · have hd2 : d ∈ (purge_cache fs (fun _ _ => false) now d t).1.dirs := by
      rw [purge_cache, h1]; exact hd
    have hL := scan_perm (purge_cache fs (fun _ _ => false) now d t).1 now d hd2
    rw [hfe, List.filter_filter] at hL
    have hR := (scan_perm fs now d hd).filter
      (fun it => decide (it.age_days ≤ (t : ℚ)))
    rw [List.filter_map, List.filter_filter] at hR
    refine hL.trans ((List.Perm.of_eq ?_).trans hR.symm)
    congr 1
    apply List.filter_congr
    intro f _
    apply Bool.coe_iff_coe.mp
    simp only [Function.comp, mkInfo, Bool.and_eq_true, Bool.not_eq_true',
      Bool.and_eq_false_iff, decide_eq_true_iff, decide_eq_false_iff_not,
      not_lt, beq_iff_eq, Bool.not_eq_true, Bool.and_eq_true]
    constructor
    · rintro ⟨⟨hdir, hfile⟩, hrest⟩
      refine ⟨?_, hdir, hfile⟩
      rcases hrest with (h | h) | h
      · exact absurd hdir (by simpa using h)
      · exact absurd hfile (by simpa using h)
      · simpa using h
    · rintro ⟨hage, hdir, hfile⟩
      exact ⟨⟨hdir, hfile⟩, Or.inr (by simpa using hage)⟩

/-- Witness for C3: five files aged 0..4 days, sizes 10..50, threshold
2 days — the two oldest (sizes 40, 50) are deleted. -/
theorem claim_C3_witness :
    (purge_cache ⟨["cache"],
        [⟨"cache", "f0", true, 10, 345600⟩, ⟨"cache", "f1", true, 20, 259200⟩,
         ⟨"cache", "f2", true, 30, 172800⟩, ⟨"cache", "f3", true, 40, 86400⟩,
         ⟨"cache", "f4", true, 50, 0⟩]⟩
      (fun _ _ => false) 345600 "cache" 2).2.1 = 2 ∧
    (purge_cache ⟨["cache"],
        [⟨"cache", "f0", true, 10, 345600⟩, ⟨"cache", "f1", true, 20, 259200⟩,
         ⟨"cache", "f2", true, 30, 172800⟩, ⟨"cache", "f3", true, 40, 86400⟩,
         ⟨"cache", "f4", true, 50, 0⟩]⟩
      (fun _ _ => false) 345600 "cache" 2).2.2 = 90 ∧
    (purge_cache ⟨["cache"],
        [⟨"cache", "f0", true, 10, 345600⟩, ⟨"cache", "f1", true, 20, 259200⟩,
         ⟨"cache", "f2", true, 30, 172800⟩, ⟨"cache", "f3", true, 40, 86400⟩,
         ⟨"cache", "f4", true, 50, 0⟩]⟩
      (fun _ _ => false) 345600 "cache" 2).1.files =
      [⟨"cache", "f0", true, 10, 345600⟩, ⟨"cache", "f1", true, 20, 259200⟩,
       ⟨"cache", "f2", true, 30, 172800⟩] := by
  have h := claim_C3 ⟨["cache"],
      [⟨"cache", "f0", true, 10, 345600⟩, ⟨"cache", "f1", true, 20, 259200⟩,
       ⟨"cache", "f2", true, 30, 172800⟩, ⟨"cache", "f3", true, 40, 86400⟩,
       ⟨"cache", "f4", true, 50, 0⟩]⟩ 345600 "cache" 2 (by decide) (by decide)
  exact ⟨h.2.1.trans (by decide), h.2.2.1.trans (by decide),
    h.1.trans (by decide)⟩

/-- C9: `purge_cache` and `clean_all_cache` only ever delete regular
files directly inside the given directory — the directory set and every
entry outside it (or that is not a regular file) survive, nothing is
created — one failed deletion does not prevent the others (every
deletable file whose own deletion succeeds is gone even when other
deletions fail, and every failing file stays), and the returned count and
bytes tally exactly the successful deletions. -/
theorem claim_C9 (fs : FS) (fails : String → String → Bool) (now : Int)
    (d : String) (t : Int) (hd : d ∈ fs.dirs)
    (hnd : (fs.files.map (fun f => (f.dir, f.name))).Nodup) :
    ((purge_cache fs fails now d t).1.dirs = fs.dirs ∧
     (∀ g ∈ (purge_cache fs fails now d t).1.files, g ∈ fs.files) ∧
     (∀ g ∈ fs.files, g.dir ≠ d → g ∈ (purge_cache fs fails now d t).1.files) ∧
     (∀ g ∈ fs.files, g.isFile = false →
        g ∈ (purge_cache fs fails now d t).1.files) ∧
     (∀ g ∈ fs.files, g.dir = d → g.isFile = true →
        (t : ℚ) < ageDays now g.mtime → fails g.dir g.name = false →
        g ∉ (purge_cache fs fails now d t).1.files) ∧
     (∀ g ∈ fs.files, fails g.dir g.name = true →
        g ∈ (purge_cache fs fails now d t).1.files) ∧
     (purge_cache fs fails now d t).2.1 =
       (fs.files.filter (fun f => (f.dir == d) && f.isFile &&
         (decide ((t : ℚ) < ageDays now f.mtime) && !fails f.dir f.name))).length ∧
     (purge_cache fs fails now d t).2.2 =
       ((fs.files.filter (fun f => (f.dir == d) && f.isFile &&
         (decide ((t : ℚ) < ageDays now f.mtime) && !fails f.dir f.name))).map
           (fun f => f.size)).sum) ∧
    ((clean_all_cache fs fails now d).1.dirs = fs.dirs ∧
     (∀ g ∈ (clean_all_cache fs fails now d).1.files, g ∈ fs.files) ∧
     (∀ g ∈ fs.files, g.dir ≠ d →
        g ∈ (clean_all_cache fs fails now d).1.files) ∧
     (∀ g ∈ fs.files, g.isFile = false →
        g ∈ (clean_all_cache fs fails now d).1.files) ∧
     (∀ g ∈ fs.files, g.dir = d → g.isFile = true →
        fails g.dir g.name = false →
        g ∉ (clean_all_cache fs fails now d).1.files) ∧
     (∀ g ∈ fs.files, fails g.dir g.name = true →
        g ∈ (clean_all_cache fs fails now d).1.files) ∧
     (clean_all_cache fs fails now d).2.1 =
       (fs.files.filter (fun f => (f.dir == d) && f.isFile &&
         !fails f.dir f.name)).length ∧
     (clean_all_cache fs fails now d).2.2 =
       ((fs.files.filter (fun f => (f.dir == d) && f.isFile &&
         !fails f.dir f.name)).map (fun f => f.size)).sum) := by
  obtain ⟨p1, p2, p3, p4⟩ := delLoop_spec fs fails now d
    (fun it => decide ((t : ℚ) < it.age_days)) hd hnd
  simp only [mkInfo] at p2 p3 p4
  obtain ⟨q1, q2, q3, q4⟩ := delLoop_spec fs fails now d (fun _ => true) hd hnd
  simp only [Bool.true_and] at q2 q3 q4
  constructor
  · refine ⟨by rw [purge_cache, p1], ?_, ?_, ?_, ?_, ?_,
      by rw [purge_cache, p3], by rw [purge_cache, p4]⟩
    · intro g hg
      rw [purge_cache, p2, List.mem_filter] at hg
      exact hg.1
    · intro g hg hne
      rw [purge_cache, p2, List.mem_filter]
      have hb : (g.dir == d) = false := by
        rw [beq_eq_false_iff_ne]; exact hne
      exact ⟨hg, by simp [hb]⟩
    · intro g hg hnf
      rw [purge_cache, p2, List.mem_filter]
      exact ⟨hg, by simp [hnf]⟩
    · intro g hg hdir hfile hage hnofail hmem
      rw [purge_cache, p2, List.mem_filter] at hmem
      have hdec : decide ((t : ℚ) < ageDays now g.mtime) = true :=
        decide_eq_true hage
      rw [hdir] at hnofail
      have := hmem.2
      simp [mkInfo, hdir, hfile, hdec, hnofail] at this
    · intro g hg hfail
      rw [purge_cache, p2, List.mem_filter]
      exact ⟨hg, by simp [hfail]⟩
  · refine ⟨by rw [clean_all_cache, q1], ?_, ?_, ?_, ?_, ?_,
      by rw [clean_all_cache, q3], by rw [clean_all_cache, q4]⟩
    · intro g hg
      rw [clean_all_cache, q2, List.mem_filter] at hg
      exact hg.1
    · intro g hg hne
      rw [clean_all_cache, q2, List.mem_filter]
      have hb : (g.dir == d) = false := by
        rw [beq_eq_false_iff_ne]; exact hne
      exact ⟨hg, by simp [hb]⟩
    · intro g hg hnf
      rw [clean_all_cache, q2, List.mem_filter]
      exact ⟨hg, by simp [hnf]⟩
    · intro g hg hdir hfile hnofail hmem
      rw [clean_all_cache, q2, List.mem_filter] at hmem
      rw [hdir] at hnofail
      have := hmem.2
      simp [hdir, hfile, hnofail] at this
    · intro g hg hfail
      rw [clean_all_cache, q2, List.mem_filter]
      exact ⟨hg, by simp [hfail]⟩

/-- Witness for C9: two old files, the deletion of `a` fails while `b`
succeeds — `b` is still deleted, `a` survives, and only `b` is counted. -/
theorem claim_C9_witness :
    (purge_cache ⟨["cache"],
        [⟨"cache", "a", true, 10, 0⟩, ⟨"cache", "b", true, 20, 0⟩]⟩
      (fun _ n => n == "a") 345600 "cache" 2).2.1 = 1 ∧
    (purge_cache ⟨["cache"],
        [⟨"cache", "a", true, 10, 0⟩, ⟨"cache", "b", true, 20, 0⟩]⟩
      (fun _ n => n == "a") 345600 "cache" 2).2.2 = 20 ∧
    (⟨"cache", "a", true, 10, 0⟩ : FSFile) ∈
      (purge_cache ⟨["cache"],
          [⟨"cache", "a", true, 10, 0⟩, ⟨"cache", "b", true, 20, 0⟩]⟩
        (fun _ n => n == "a") 345600 "cache" 2).1.files ∧
    (⟨"cache", "b", true, 20, 0⟩ : FSFile) ∉
      (purge_cache ⟨["cache"],
          [⟨"cache", "a", true, 10, 0⟩, ⟨"cache", "b", true, 20, 0⟩]⟩
        (fun _ n => n == "a") 345600 "cache" 2).1.files := by
  have h := claim_C9 ⟨["cache"],
      [⟨"cache", "a", true, 10, 0⟩, ⟨"cache", "b", true, 20, 0⟩]⟩
    (fun _ n => n == "a") 345600 "cache" 2 (by decide) (by decide)
  refine ⟨h.1.2.2.2.2.2.2.1.trans (by decide),
    h.1.2.2.2.2.2.2.2.trans (by decide),
    h.1.2.2.2.2.2.1 ⟨"cache", "a", true, 10, 0⟩ (by decide) (by decide),
    h.1.2.2.2.2.1 ⟨"cache", "b", true, 20, 0⟩ (by decide) rfl rfl
      (by decide) rfl⟩

end YtMpv
